import Mathlib

/-!
Verification of the render-diff / rdv dual-revision render-and-diff pipeline.

The Go sources are shallowly embedded: pure string manipulation is translated
to Lean functions over `String` / `List Char`, the `error` values produced by
the programs are an explicit inductive type mirroring how Go's `os.IsNotExist`
classifies them, and the side-effecting pipeline (`run` in cmd/root.go and the
`RunE` closure of the rdv variant) is embedded as a function from an
environment describing the outcome of each external call to the ordered list
of visible effects plus the process outcome.
-/

namespace RenderDiff

/-! ## String helpers mirroring Go's strings package

`String.startsWith`/`endsWith`/`trim` do not reduce inside the kernel, so the
Go `strings` functions are embedded via the underlying character lists. -/

/-- Embeds Go `strings.HasPrefix s pre`. -/
def goStartsWith (s pre : String) : Bool :=
  pre.data.isPrefixOf s.data

/-- Embeds Go `strings.HasSuffix s suf`. -/
def goEndsWith (s suf : String) : Bool :=
  suf.data.isSuffixOf s.data

/-- Embeds Go `strings.TrimSpace`: drop leading and trailing whitespace. -/
def goTrimSpace (s : String) : String :=
  String.mk (((s.data.dropWhile Char.isWhitespace).reverse.dropWhile Char.isWhitespace).reverse)

/-- Splitting a character list at newline characters; the accumulator holds the
current line reversed, as in a manual scan. -/
def splitNlAux : List Char → List Char → List (List Char)
  | [], acc => [acc.reverse]
  | c :: cs, acc =>
    if c = '\n' then acc.reverse :: splitNlAux cs []
    else splitNlAux cs (c :: acc)

/-- Embeds Go `strings.Split(s, "\n")`: `""` yields one empty line, a trailing
newline yields a trailing empty line. -/
def splitLines (s : String) : List String :=
  (splitNlAux s.data []).map String.mk

/-! ## Go error values and `os.IsNotExist`

`os.IsNotExist` predates `errors.Is`; it looks through `*os.PathError`,
`*os.LinkError` and `*os.SyscallError` only.  It does **not** follow the
wrapping chain of `fmt.Errorf` with `%w`, and an error built by `fmt.Errorf`
without `%w` (or `errors.New`) is a bare `errorString` which it always
rejects.  The inductive type below mirrors exactly that classification. -/

/-- The shapes of Go error values the programs manipulate.
  * `pathError` stands for `*os.PathError` (and the other syscall-carrying
    types); `notExist` records whether the wrapped errno is `ENOENT`.
  * `errorString` is the result of `errors.New` / `fmt.Errorf` without `%w`.
  * `wrapError` is the result of `fmt.Errorf` with `%w`. -/
inductive GoError where
  | pathError (op path : String) (notExist : Bool)
  | errorString (msg : String)
  | wrapError (msg : String) (inner : GoError)
deriving DecidableEq, Repr

/-- The display text of a Go error (`err.Error()`), used when a caller formats
it with the `%s` / `%v` verbs, which discards the error's structure. -/
def GoError.message : GoError → String
  | .pathError op path notExist =>
      op ++ " " ++ path ++ ": " ++ (if notExist then "no such file or directory" else "system error")
  | .errorString msg => msg
  | .wrapError msg _ => msg

/-- Embeds Go `os.IsNotExist`: true only for the syscall-carrying error shapes
wrapping `ENOENT`; `false` on every `fmt.Errorf`-constructed error, because
`os.IsNotExist` does not unwrap those. -/
def osIsNotExist : GoError → Bool
  | .pathError _ _ notExist => notExist
  | .errorString _ => false
  | .wrapError _ _ => false

/-! ## renderManifests (cmd/root.go lines 212-231)

`renderManifests` probes the path with `helm.IsHelmChart` / `kustomize.IsKustomize`
and delegates to the matching renderer.  Those collaborators' outcomes are the
environment; the function's own control flow and error construction are
translated verbatim.  Every error it returns is built by `fmt.Errorf` with the
`%s` verb or with no verb at all, i.e. a bare `errorString`. -/

/-- The behaviour of the external collaborators for one path: whether the path
looks like a Helm chart / a kustomization, and what each renderer would
return for it.  A path absent from the revision has both probes `false`. -/
structure RenderPathState where
  isHelmChart : Bool
  isKustomize : Bool
  helmRender : Except GoError String
  kustomizeRender : Except GoError String
deriving Repr

/-- Embedding of `renderManifests` (cmd/root.go 212-231): render a Helm chart
or build a kustomization, wrapping any failure with `fmt.Errorf` (no `%w`). -/
def renderManifests (s : RenderPathState) (path : String) : Except GoError String :=
  if s.isHelmChart then
    match s.helmRender with
    | .ok r => .ok r
    | .error e => .error (.errorString ("failed to render target Chart: '" ++ e.message ++ "'"))
  else if s.isKustomize then
    match s.kustomizeRender with
    | .ok r => .ok r
    | .error e => .error (.errorString ("failed to build target Kustomization: '" ++ e.message ++ "'"))
  else
    .error (.errorString ("path: " ++ path ++ " is not a valid Helm Chart or Kustomization"))

/-- Embedding of the caller's treatment of the target-side render result
(cmd/root.go 185-195): a failure satisfying `os.IsNotExist` is downgraded to
the empty rendered text, any other failure stays fatal. -/
def handleTargetRender : Except GoError String → Except GoError String
  | .ok t => .ok t
  | .error e => if osIsNotExist e then .ok "" else .error e

/-- The `RenderPathState` of a path that exists at neither probe: both
`IsHelmChart` and `IsKustomize` report `false` (a missing directory). -/
def missingPathState : RenderPathState :=
  ⟨false, false, .error (.errorString "unused"), .error (.errorString "unused")⟩

/-- Claim C1: the pipeline is supposed to downgrade a target-side render
failure to an empty target text exactly when the failure signals that the path
does not exist, which requires the error produced by `renderManifests` for a
missing path to satisfy `os.IsNotExist`.  The code violates this: every error
`renderManifests` can return is a bare `fmt.Errorf` string, on which
`os.IsNotExist` is `false`, so the downgrade branch is unreachable and a path
missing at the target revision aborts the run as fatal. -/
theorem c1_notexist_downgrade_unreachable :
    (∀ (s : RenderPathState) (path : String) (e : GoError),
        renderManifests s path = .error e → osIsNotExist e = false) ∧
    handleTargetRender (renderManifests missingPathState "charts/app")
      = .error (.errorString "path: charts/app is not a valid Helm Chart or Kustomization") := by
  constructor
  · intro s path e h
    unfold renderManifests at h
    split at h
    · cases hh : s.helmRender with
      | ok r => rw [hh] at h; cases h
      | error e0 => rw [hh] at h; cases h; rfl
    · split at h
      · cases hh : s.kustomizeRender with
        | ok r => rw [hh] at h; cases h
        | error e0 => rw [hh] at h; cases h; rfl
      · cases h; rfl
  · rfl

/-- Witness for claim C1's universally quantified conjunct, at the state of a
missing path. -/
theorem c1_notexist_downgrade_unreachable_witness :
    osIsNotExist (.errorString "path: x is not a valid Helm Chart or Kustomization") = false :=
  c1_notexist_downgrade_unreachable.1 missingPathState "x"
    (.errorString "path: x is not a valid Helm Chart or Kustomization") (by rfl)

/-! ## colorizeDiff (cmd/root.go lines 244-267)

The ANSI color constants and the line classification switch are translated
verbatim; crucially the cases keep the source's order, in which the `"+"` and
`"-"` cases are tried before the `"---"` / `"+++"` header cases. -/

/-- ANSI escape for red (`\033[31m` in the source). -/
def colorRed : String := "\x1b[31m"

/-- ANSI escape for green (`\033[32m` in the source). -/
def colorGreen : String := "\x1b[32m"

/-- ANSI escape for cyan (`\x1b[36m` in the source). -/
def colorCyan : String := "\x1b[36m"

/-- ANSI reset (`\033[0m` in the source). -/
def colorReset : String := "\x1b[0m"

/-- One iteration of the `switch` in `colorizeDiff` (cmd/root.go 248-263),
in the source's case order, returning the string written for the line
(including the trailing newline the builder appends). -/
def colorizeLine (line : String) : String :=
  if goStartsWith line "+" then colorGreen ++ line ++ colorReset ++ "\n"
  else if goStartsWith line "-" then colorRed ++ line ++ colorReset ++ "\n"
  else if goStartsWith line "@@" then colorCyan ++ line ++ colorReset ++ "\n"
  else if goStartsWith line "---" || goStartsWith line "+++" then line ++ "\n"
  else line ++ "\n"

/-- Embedding of `colorizeDiff` (cmd/root.go 244-267): split on newlines and
rewrite each line through the switch. -/
def colorizeDiff (diff : String) : String :=
  String.join ((splitLines diff).map colorizeLine)

/-- Claim C2: addition, removal and hunk-header lines are colorized as
claimed, but the file-header lines are **not** emitted unchanged: because the
`"+"` and `"-"` cases precede the `"---"`/`"+++"` cases in the switch, a
`"---"` header is wrapped in the removal color and a `"+++"` header in the
addition color, contradicting the claim (and the source's own comment
"--- and +++ are headers, no special color", whose case is dead code). -/
theorem c2_header_lines_are_colorized :
    colorizeDiff "--- main/app\n+++ local/app\n@@ -1 +1 @@\n context\n+added\n-removed"
      = colorRed ++ "--- main/app" ++ colorReset ++ "\n"
        ++ colorGreen ++ "+++ local/app" ++ colorReset ++ "\n"
        ++ colorCyan ++ "@@ -1 +1 @@" ++ colorReset ++ "\n"
        ++ " context\n"
        ++ colorGreen ++ "+added" ++ colorReset ++ "\n"
        ++ colorRed ++ "-removed" ++ colorReset ++ "\n" ∧
    colorizeDiff "--- main/app" ≠ "--- main/app\n" := by
  constructor
  · rfl
  · decide

/-! ## The unified diff strategy (cmd/root.go lines 234-239)

`createDiff` delegates to the external `gotextdiff`/`myers` library, which is
not part of this repository.  Modelled from the spec: a shortest-edit-script
computation at line granularity (an LCS-directed edit script, the recursive
presentation of Myers' algorithm), formatted with `---`/`+++` headers, an `@@`
hunk header and `+`/`-`/space line markers; hunk splitting and the numeric
hunk ranges are abstracted into a single hunk.  An empty input text is zero
lines. -/

/-- A line-level edit operation of the unified strategy. -/
inductive Edit where
  | keep (line : String)
  | del (line : String)
  | ins (line : String)
deriving DecidableEq, Repr

/-- Length of a longest common subsequence of two line lists; directs the
shortest-edit-script choice below. -/
def lcsLen : List String → List String → Nat
  | [], _ => 0
  | _ :: _, [] => 0
  | a :: as, b :: bs =>
    if a = b then lcsLen as bs + 1
    else max (lcsLen as (b :: bs)) (lcsLen (a :: as) bs)
termination_by x y => x.length + y.length

/-- Modelled from the spec: the minimal line edit script from the first
(target-side) line list to the second (local-side) line list. -/
def diffLines : List String → List String → List Edit
  | [], [] => []
  | [], b :: bs => .ins b :: diffLines [] bs
  | a :: as, [] => .del a :: diffLines as []
  | a :: as, b :: bs =>
    if a = b then .keep a :: diffLines as bs
    else if lcsLen (a :: as) bs ≤ lcsLen as (b :: bs) then .del a :: diffLines as (b :: bs)
    else .ins b :: diffLines (a :: as) bs
termination_by x y => x.length + y.length

/-- The source side an edit script was computed from: its kept and deleted
lines in order. -/
def oldSide : List Edit → List String
  | [] => []
  | .keep l :: es => l :: oldSide es
  | .del l :: es => l :: oldSide es
  | .ins _ :: es => oldSide es

/-- The destination side of an edit script: applying it to the source deletes
every removal line and inserts every addition line, leaving the kept and
inserted lines in order. -/
def newSide : List Edit → List String
  | [] => []
  | .keep l :: es => l :: newSide es
  | .del _ :: es => newSide es
  | .ins l :: es => l :: newSide es

/-- The line contents of a rendered text as the diff engine consumes them; an
absent side is rendered as the empty string and contributes zero lines. -/
def textLines (s : String) : List String :=
  if s = "" then [] else splitLines s

/-- Whether an edit script contains any non-`keep` operation; the unified
report is empty exactly when it does not. -/
def hasChanges (es : List Edit) : Bool :=
  es.any fun e =>
    match e with
    | .keep _ => false
    | .del _ => true
    | .ins _ => true

/-- The line marker of one edit operation in the unified report. -/
def formatEdit : Edit → String
  | .keep l => " " ++ l
  | .del l => "-" ++ l
  | .ins l => "+" ++ l

/-- Modelled from the spec: the unified-diff report of an edit script, empty
when there is no change, otherwise file headers, an `@@` hunk header and the
marked lines (hunk splitting abstracted into one hunk). -/
def formatUnified (fromName toName : String) (es : List Edit) : String :=
  if hasChanges es then
    "--- " ++ fromName ++ "\n+++ " ++ toName ++ "\n@@\n"
      ++ String.join ((es.map formatEdit).map (· ++ "\n"))
  else ""

/-- Embedding of `createDiff` (cmd/root.go 234-239): compute the line edit
script from `a` (target text) to `b` (local text) and format it. -/
def createDiff (a b fromName toName : String) : String :=
  formatUnified fromName toName (diffLines (textLines a) (textLines b))

/-- Claim C3: the unified strategy's edit script is correct: deleting every
removal line and keeping/inserting the rest reconstructs the local text's
lines exactly (and symmetrically the kept plus removed lines are exactly the
target text's lines). -/
theorem c3_edit_script_reconstructs (tgt loc : List String) :
    newSide (diffLines tgt loc) = loc ∧ oldSide (diffLines tgt loc) = tgt := by
  induction tgt, loc using diffLines.induct with
  | case1 => simp [diffLines, newSide, oldSide]
  | case2 b bs ih => simp [diffLines, newSide, oldSide, ih.1, ih.2]
  | case3 a as ih => simp [diffLines, newSide, oldSide, ih.1, ih.2]
  | case4 as b bs ih => simp [diffLines, newSide, oldSide, ih.1, ih.2]
  | case5 a as b bs hne hle ih =>
    simp [diffLines, hne, hle, newSide, oldSide, ih.1, ih.2]
  | case6 a as b bs hne hgt ih =>
    simp [diffLines, hne, hgt, newSide, oldSide, ih.1, ih.2]

/-! ## The semantic diff strategy

`diff.CreateSemanticDiff` delegates to the external `dyff` library, which is
not part of this repository.  Modelled from the spec: both texts are parsed as
sequences of structured documents, documents are matched across the two sides
by resource identity (apiVersion+kind+namespace+name), falling back to
ordinal position when identities are ambiguous, and per-field
additions/removals/value changes are reported; an empty record sequence means
no difference. -/

/-- A parsed manifest document: its resource-identity fields and its scalar
fields as (field path, value) pairs. -/
structure SemDocument where
  apiVersion : String
  kind : String
  nspace : String
  name : String
  fields : List (String × String)
deriving DecidableEq, Repr

/-- The resource identity a document is matched by across the two sides. -/
def SemDocument.identity (d : SemDocument) : String :=
  d.apiVersion ++ "/" ++ d.kind ++ "/" ++ d.nspace ++ "/" ++ d.name

/-- One structural difference record of the semantic strategy. -/
inductive SemDiff where
  | docAdded (id : String)
  | docRemoved (id : String)
  | fieldAdded (id field value : String)
  | fieldRemoved (id field value : String)
  | fieldChanged (id field oldValue newValue : String)
deriving DecidableEq, Repr

/-- Per-field differences between the target-side and local-side fields of a
matched document pair: removals, value changes, then additions. -/
def diffFields (id : String) (t l : List (String × String)) : List SemDiff :=
  (t.filterMap fun kv =>
    match l.lookup kv.1 with
    | none => some (.fieldRemoved id kv.1 kv.2)
    | some v2 => if kv.2 = v2 then none else some (.fieldChanged id kv.1 kv.2 v2))
  ++ (l.filterMap fun kv =>
    match t.lookup kv.1 with
    | none => some (.fieldAdded id kv.1 kv.2)
    | some _ => none)

/-- The first document of a side carrying a given identity. -/
def docById (docs : List SemDocument) (id : String) : Option SemDocument :=
  docs.find? fun d => d.identity = id

/-- Whether a side's resource identities are pairwise distinct, i.e.
identity-based matching is unambiguous. -/
def identitiesUnique (docs : List SemDocument) : Bool :=
  decide (docs.map SemDocument.identity).Nodup

/-- Identity-based document matching: target documents missing on the local
side are removals, matched pairs contribute field differences, local documents
missing on the target side are additions. -/
def matchById (t l : List SemDocument) : List SemDiff :=
  (t.flatMap fun d =>
    match docById l d.identity with
    | none => [.docRemoved d.identity]
    | some d2 => diffFields d.identity d.fields d2.fields)
  ++ (l.filterMap fun d =>
    match docById t d.identity with
    | none => some (.docAdded d.identity)
    | some _ => none)

/-- Ordinal (positional) document matching, the fallback for ambiguous
identities. -/
def matchByOrdinal : List SemDocument → List SemDocument → List SemDiff
  | [], [] => []
  | [], d :: ls => .docAdded d.identity :: matchByOrdinal [] ls
  | d :: ts, [] => .docRemoved d.identity :: matchByOrdinal ts []
  | d1 :: ts, d2 :: ls => diffFields d1.identity d1.fields d2.fields ++ matchByOrdinal ts ls

/-- Modelled from the spec: the semantic strategy's difference sequence over
the two sides' parsed documents. -/
def semanticCompute (t l : List SemDocument) : List SemDiff :=
  if identitiesUnique t && identitiesUnique l then matchById t l else matchByOrdinal t l

/-- A document is well formed when its field paths are pairwise distinct, as
they are in a parsed YAML mapping. -/
def SemDocument.wf (d : SemDocument) : Prop :=
  (d.fields.map Prod.fst).Nodup

/-! ## The Reporter (cmd/root.go lines 197-208 and the rdv RunE lines 181-210) -/

/-- The fixed message printed when a diff strategy reports no difference
(cmd/root.go 201, rdv RunE 189 and 204, with `fmt.Println`'s leading text). -/
def noDiffMessage : String := "\nNo differences found between rendered manifests."

/-- Embedding of the textual reporting branch (cmd/root.go 200-205): the
printed lines for a unified-diff string. -/
def reportTextual (ref renderedDiff : String) : List String :=
  if renderedDiff = "" then [noDiffMessage]
  else ["\n--- Manifest Differences (" ++ ref ++ " vs. Local) ---", colorizeDiff renderedDiff]

/-- One rendered line per semantic difference record; stands for the dyff
report body (modelled from the spec: grouped strategy-specific report). -/
def semDiffLine : SemDiff → String
  | .docAdded id => "added document " ++ id
  | .docRemoved id => "removed document " ++ id
  | .fieldAdded id f v => id ++ ": added " ++ f ++ " = " ++ v
  | .fieldRemoved id f v => id ++ ": removed " ++ f ++ " = " ++ v
  | .fieldChanged id f a b => id ++ ": " ++ f ++ " changed " ++ a ++ " -> " ++ b

/-- Embedding of the semantic reporting branch (rdv RunE 188-197): the fixed
message when the difference sequence is empty, otherwise a header plus the
report. -/
def reportSemantic (ref : String) (diffs : List SemDiff) : List String :=
  if diffs.length = 0 then [noDiffMessage]
  else ("\n--- Diff (" ++ ref ++ " vs. local) ---") :: diffs.map semDiffLine

/-! ### Helper lemmas for equal inputs -/

/-- With pairwise-distinct keys, an association list looks up each of its own
pairs to that pair's value. -/
theorem lookup_eq_of_mem_of_nodup {β : Type} (l : List (String × β)) (k : String) (v : β)
    (hnd : (l.map Prod.fst).Nodup) (hmem : (k, v) ∈ l) : l.lookup k = some v := by
  induction l with
  | nil => cases hmem
  | cons kv rest ih =>
    simp only [List.map_cons, List.nodup_cons] at hnd
    rcases List.mem_cons.mp hmem with h | h
    · subst h
      simp [List.lookup]
    · have hkne : k ≠ kv.1 := by
        intro hk
        exact hnd.1 (hk ▸ (List.mem_map.mpr ⟨(k, v), h, rfl⟩))
      have : (k == kv.1) = false := by
        simp [hkne]
      simp [List.lookup, this, ih hnd.2 h]

/-- An association list looks up every key it contains to some value. -/
theorem lookup_isSome_of_mem {β : Type} (l : List (String × β)) (k : String) (v : β)
    (hmem : (k, v) ∈ l) : ∃ w, l.lookup k = some w := by
  induction l with
  | nil => cases hmem
  | cons kv rest ih =>
    rcases List.mem_cons.mp hmem with h | h
    · subst h
      exact ⟨v, by simp [List.lookup]⟩
    · by_cases hk : k = kv.1
      · exact ⟨kv.2, by simp [List.lookup, hk]⟩
      · have : (k == kv.1) = false := by simp [hk]
        rcases ih h with ⟨w, hw⟩
        exact ⟨w, by simp [List.lookup, this, hw]⟩

/-- A well-formed document has no field difference against itself. -/
theorem diffFields_self (id : String) (f : List (String × String))
    (hnd : (f.map Prod.fst).Nodup) : diffFields id f f = [] := by
  unfold diffFields
  rw [List.append_eq_nil]
  constructor
  · rw [List.filterMap_eq_nil_iff]
    intro kv hkv
    rw [lookup_eq_of_mem_of_nodup f kv.1 kv.2 hnd hkv]
    simp
  · rw [List.filterMap_eq_nil_iff]
    intro kv hkv
    rcases lookup_isSome_of_mem f kv.1 kv.2 hkv with ⟨w, hw⟩
    rw [hw]

/-- With pairwise-distinct identities, identity lookup of a member document
returns that document. -/
theorem docById_self (docs : List SemDocument) (d : SemDocument)
    (hnd : (docs.map SemDocument.identity).Nodup) (hmem : d ∈ docs) :
    docById docs d.identity = some d := by
  induction docs with
  | nil => cases hmem
  | cons d0 rest ih =>
    simp only [List.map_cons, List.nodup_cons] at hnd
    rcases List.mem_cons.mp hmem with h | h
    · subst h
      simp [docById, List.find?]
    · have hne : d0.identity ≠ d.identity := by
        intro hk
        exact hnd.1 (hk ▸ (List.mem_map.mpr ⟨d, h, rfl⟩))
      have hdec : (decide (d0.identity = d.identity)) = false := by
        simp [hne]
      have := ih hnd.2 h
      simpa [docById, List.find?, hdec] using this

/-- A document sequence matched ordinally against itself has no difference,
provided every document is well formed. -/
theorem matchByOrdinal_self (docs : List SemDocument)
    (hwf : ∀ d ∈ docs, d.wf) : matchByOrdinal docs docs = [] := by
  induction docs with
  | nil => rw [matchByOrdinal]
  | cons d rest ih =>
    rw [matchByOrdinal, diffFields_self d.identity d.fields (hwf d (List.mem_cons_self d rest)),
      List.nil_append]
    exact ih fun d2 hd2 => hwf d2 (List.mem_cons_of_mem d hd2)

/-- A document sequence matched by identity against itself has no difference,
provided identities are unique and every document is well formed. -/
theorem matchById_self (docs : List SemDocument)
    (hnd : (docs.map SemDocument.identity).Nodup)
    (hwf : ∀ d ∈ docs, d.wf) : matchById docs docs = [] := by
  unfold matchById
  rw [List.append_eq_nil]
  constructor
  · rw [List.flatMap_eq_nil_iff]
    intro d hd
    simp [docById_self docs d hnd hd, diffFields_self d.identity d.fields (hwf d hd)]
  · rw [List.filterMap_eq_nil_iff]
    intro d hd
    simp [docById_self docs d hnd hd]

/-- The semantic strategy reports no difference between a document sequence
and itself, provided every document is well formed. -/
theorem semanticCompute_self (docs : List SemDocument)
    (hwf : ∀ d ∈ docs, d.wf) : semanticCompute docs docs = [] := by
  unfold semanticCompute
  by_cases hu : identitiesUnique docs = true
  · simp only [hu, Bool.and_self, if_true]
    exact matchById_self docs (of_decide_eq_true hu) hwf
  · have hu2 : identitiesUnique docs = false := by simpa using hu
    simp only [hu2, Bool.and_self, if_false]
    exact matchByOrdinal_self docs hwf

/-! ### Claims C4 and C5 -/

/-- The edit script of a line list against itself keeps every line. -/
theorem diffLines_self (ls : List String) : diffLines ls ls = ls.map Edit.keep := by
  induction ls with
  | nil => rw [diffLines]; rfl
  | cons a as ih => rw [diffLines, if_pos rfl, ih]; rfl

/-- A script of kept lines only has no changes. -/
theorem hasChanges_map_keep (ls : List String) : hasChanges (ls.map Edit.keep) = false := by
  induction ls with
  | nil => rfl
  | cons a as ih => simp [hasChanges] at ih ⊢

/-- Claim C4: when the local text equals the target text, the unified strategy
returns the empty string and the semantic strategy returns the empty
difference sequence (for the common parsed documents, each well formed), and
in both reporting branches the program prints exactly the single fixed
"No differences found between rendered manifests." message. -/
theorem c4_equal_inputs_report_no_differences (tgtText locText : String)
    (docs : List SemDocument) (ref fromName toName : String)
    (heq : locText = tgtText) (hwf : ∀ d ∈ docs, d.wf) :
    createDiff tgtText locText fromName toName = "" ∧
    semanticCompute docs docs = [] ∧
    reportTextual ref (createDiff tgtText locText fromName toName) = [noDiffMessage] ∧
    reportSemantic ref (semanticCompute docs docs) = [noDiffMessage] := by
  subst heq
  have hdiff : createDiff locText locText fromName toName = "" := by
    unfold createDiff formatUnified
    rw [diffLines_self, hasChanges_map_keep]
    rfl
  have hsem := semanticCompute_self docs hwf
  refine ⟨hdiff, hsem, ?_, ?_⟩
  · rw [hdiff]; rfl
  · rw [hsem]; rfl

/-- Document well-formedness is decidable, so witnesses can be checked by
evaluation. -/
instance (d : SemDocument) : Decidable d.wf := by
  unfold SemDocument.wf
  infer_instance

/-- Witness for claim C4 at a concrete equal pair of rendered texts and one
well-formed document. -/
theorem c4_equal_inputs_report_no_differences_witness :
    createDiff "kind: A\nreplicas: 2" "kind: A\nreplicas: 2" "main/app" "local/app" = "" ∧
    semanticCompute [⟨"v1", "A", "default", "x", [("replicas", "2")]⟩]
        [⟨"v1", "A", "default", "x", [("replicas", "2")]⟩] = [] ∧
    reportTextual "main" (createDiff "kind: A\nreplicas: 2" "kind: A\nreplicas: 2" "main/app" "local/app")
      = [noDiffMessage] ∧
    reportSemantic "main" (semanticCompute [⟨"v1", "A", "default", "x", [("replicas", "2")]⟩]
        [⟨"v1", "A", "default", "x", [("replicas", "2")]⟩])
      = [noDiffMessage] :=
  c4_equal_inputs_report_no_differences "kind: A\nreplicas: 2" "kind: A\nreplicas: 2"
    [⟨"v1", "A", "default", "x", [("replicas", "2")]⟩] "main" "main/app" "local/app"
    rfl (by decide)

/-- An empty target side makes every local line an insertion. -/
theorem diffLines_nil_left (ls : List String) : diffLines [] ls = ls.map Edit.ins := by
  induction ls with
  | nil => rw [diffLines]; rfl
  | cons b bs ih => rw [diffLines, ih]; rfl

/-- An empty local side makes every target line a deletion. -/
theorem diffLines_nil_right (ls : List String) : diffLines ls [] = ls.map Edit.del := by
  induction ls with
  | nil => rw [diffLines]; rfl
  | cons a as ih => rw [diffLines, ih]; rfl

/-- Identity matching against an empty target side adds every local document. -/
theorem matchById_nil_left (dl : List SemDocument) :
    matchById [] dl = dl.map fun d => SemDiff.docAdded d.identity := by
  unfold matchById
  rw [List.flatMap_nil, List.nil_append]
  induction dl with
  | nil => rfl
  | cons d rest ih =>
    rw [List.filterMap_cons, List.map_cons]
    simp only [docById, List.find?_nil] at ih ⊢
    rw [ih]

/-- Identity matching against an empty local side removes every target
document. -/
theorem matchById_nil_right (dt : List SemDocument) :
    matchById dt [] = dt.map fun d => SemDiff.docRemoved d.identity := by
  unfold matchById
  rw [List.filterMap_nil, List.append_nil]
  induction dt with
  | nil => rfl
  | cons d rest ih =>
    rw [List.flatMap_cons, List.map_cons]
    simp only [docById, List.find?_nil] at ih ⊢
    rw [ih]
    rfl

/-- Ordinal matching against an empty target side adds every local document. -/
theorem matchByOrdinal_nil_left (dl : List SemDocument) :
    matchByOrdinal [] dl = dl.map fun d => SemDiff.docAdded d.identity := by
  induction dl with
  | nil => rw [matchByOrdinal]; rfl
  | cons d rest ih => rw [matchByOrdinal, ih]; rfl

/-- Ordinal matching against an empty local side removes every target
document. -/
theorem matchByOrdinal_nil_right (dt : List SemDocument) :
    matchByOrdinal dt [] = dt.map fun d => SemDiff.docRemoved d.identity := by
  induction dt with
  | nil => rw [matchByOrdinal]; rfl
  | cons d rest ih => rw [matchByOrdinal, ih]; rfl

/-- Claim C5: a diff against an empty target side reports every local line as
an addition and every local document as added; a diff against an empty local
side reports every target line as a removal and every target document as
removed — under both strategies.  The empty string renders to zero lines. -/
theorem c5_empty_side_is_purely_additive_or_subtractive
    (locText tgtText : String) (dl dt : List SemDocument) :
    diffLines (textLines "") (textLines locText) = (textLines locText).map Edit.ins ∧
    diffLines (textLines tgtText) (textLines "") = (textLines tgtText).map Edit.del ∧
    semanticCompute [] dl = dl.map (fun d => SemDiff.docAdded d.identity) ∧
    semanticCompute dt [] = dt.map (fun d => SemDiff.docRemoved d.identity) := by
  refine ⟨diffLines_nil_left (textLines locText), diffLines_nil_right (textLines tgtText), ?_, ?_⟩
  · unfold semanticCompute
    split
    · exact matchById_nil_left dl
    · exact matchByOrdinal_nil_left dl
  · unfold semanticCompute
    split
    · exact matchById_nil_right dt
    · exact matchByOrdinal_nil_right dt

/-! ## The render orchestrator's ordering guarantee (rdv RunE lines 136-179)

The rdv `RunE` starts the local-render and target-render closures as two
goroutines of one `errgroup.Group` and calls `g.Wait()` before the diff
branches.  `errgroup.Wait` blocks until every started function has returned
(also when one returns an error: the group created by `new(errgroup.Group)`
carries no context and cancels nothing), then returns the first non-nil
error.  The execution is modelled as an event trace: the scheduler picks an
arbitrary interleaving of the two tasks' traces, each of which terminates with
its completion event; the `Wait` barrier and the diff phase follow the whole
interleaving. -/

/-- Observable events of the orchestrated pipeline. -/
inductive PipeEvent where
  | renderStep (side : Bool)
  | renderLocalDone (ok : Bool)
  | renderTargetDone (ok : Bool)
  | waitReturned
  | diffStarted
deriving DecidableEq, Repr

/-- `Shuffle as bs cs`: `cs` is an interleaving of `as` and `bs` preserving the
order within each — every schedule of two concurrent tasks. -/
inductive Shuffle : List PipeEvent → List PipeEvent → List PipeEvent → Prop where
  | nil : Shuffle [] [] []
  | left {a : PipeEvent} {as bs cs : List PipeEvent} :
      Shuffle as bs cs → Shuffle (a :: as) bs (a :: cs)
  | right {b : PipeEvent} {as bs cs : List PipeEvent} :
      Shuffle as bs cs → Shuffle as (b :: bs) (b :: cs)

/-- The trace of the local-render goroutine (rdv RunE 143-157): internal steps
followed by its termination, successful or not. -/
def localTaskTrace (body : List PipeEvent) (ok : Bool) : List PipeEvent :=
  body ++ [.renderLocalDone ok]

/-- The trace of the target-render goroutine (rdv RunE 160-173). -/
def targetTaskTrace (body : List PipeEvent) (ok : Bool) : List PipeEvent :=
  body ++ [.renderTargetDone ok]

/-- What follows the `g.Wait()` barrier (rdv RunE 176-210): on any render
failure the orchestrator returns the error; only when both tasks succeeded
does the diff computation start. -/
def afterWait (localOk targetOk : Bool) : List PipeEvent :=
  .waitReturned :: (if localOk && targetOk then [.diffStarted] else [])

/-- A complete pipeline trace: a scheduler-chosen interleaving of both tasks,
then the barrier and the diff phase. -/
def runEventTrace (σ : List PipeEvent) (localOk targetOk : Bool) : List PipeEvent :=
  σ ++ afterWait localOk targetOk

/-- An interleaving is a permutation of the two interleaved traces. -/
theorem Shuffle.perm {as bs cs : List PipeEvent} (h : Shuffle as bs cs) :
    cs.Perm (as ++ bs) := by
  induction h with
  | nil => exact List.Perm.refl []
  | left _ ih => exact ih.cons _
  | right _ ih => exact (ih.cons _).trans List.perm_middle.symm

/-- Claim C6: in every schedule of the two render goroutines, both completion
events — also failing ones — appear in the pipeline trace, and any diff-start
event is strictly preceded by both completion events: the diff computation
does not start until both render tasks have terminated. -/
theorem c6_diff_starts_after_both_renders
    (lBody tBody σ : List PipeEvent) (lOk tOk : Bool)
    (hσ : Shuffle (localTaskTrace lBody lOk) (targetTaskTrace tBody tOk) σ)
    (hlb : PipeEvent.diffStarted ∉ lBody) (htb : PipeEvent.diffStarted ∉ tBody) :
    (PipeEvent.renderLocalDone lOk ∈ runEventTrace σ lOk tOk ∧
     PipeEvent.renderTargetDone tOk ∈ runEventTrace σ lOk tOk) ∧
    ∀ i : ℕ, (runEventTrace σ lOk tOk)[i]? = some PipeEvent.diffStarted →
      (∃ j < i, (runEventTrace σ lOk tOk)[j]? = some (PipeEvent.renderLocalDone lOk)) ∧
      (∃ k < i, (runEventTrace σ lOk tOk)[k]? = some (PipeEvent.renderTargetDone tOk)) := by
  have hperm := hσ.perm
  have hmemL : PipeEvent.renderLocalDone lOk ∈ σ := by
    refine hperm.mem_iff.mpr ?_
    exact List.mem_append.mpr (Or.inl (by simp [localTaskTrace]))
  have hmemT : PipeEvent.renderTargetDone tOk ∈ σ := by
    refine hperm.mem_iff.mpr ?_
    exact List.mem_append.mpr (Or.inr (by simp [targetTaskTrace]))
  have hnd : PipeEvent.diffStarted ∉ σ := by
    intro hmem
    rcases List.mem_append.mp (hperm.mem_iff.mp hmem) with h | h
    · rcases List.mem_append.mp h with h2 | h2
      · exact hlb h2
      · simp at h2
    · rcases List.mem_append.mp h with h2 | h2
      · exact htb h2
      · simp at h2
  constructor
  · exact ⟨List.mem_append.mpr (Or.inl hmemL), List.mem_append.mpr (Or.inl hmemT)⟩
  · intro i hi
    have hige : σ.length ≤ i := by
      by_contra hlt
      push_neg at hlt
      rw [runEventTrace, List.getElem?_append, if_pos hlt] at hi
      exact hnd (List.mem_iff_getElem?.mpr ⟨i, hi⟩)
    rcases List.mem_iff_getElem?.mp hmemL with ⟨j, hj⟩
    rcases List.mem_iff_getElem?.mp hmemT with ⟨k, hk⟩
    have hjlt : j < σ.length := (List.getElem?_eq_some.mp hj).1
    have hklt : k < σ.length := (List.getElem?_eq_some.mp hk).1
    constructor
    · exact ⟨j, lt_of_lt_of_le hjlt hige,
        by rw [runEventTrace, List.getElem?_append, if_pos hjlt]; exact hj⟩
    · exact ⟨k, lt_of_lt_of_le hklt hige,
        by rw [runEventTrace, List.getElem?_append, if_pos hklt]; exact hk⟩

/-- Witness for claim C6 at a concrete schedule in which the failing local
task finishes after the succeeding target task. -/
theorem c6_diff_starts_after_both_renders_witness :
    (PipeEvent.renderLocalDone false ∈
        runEventTrace [.renderTargetDone true, .renderLocalDone false] false true ∧
     PipeEvent.renderTargetDone true ∈
        runEventTrace [.renderTargetDone true, .renderLocalDone false] false true) ∧
    ∀ i : ℕ,
      (runEventTrace [.renderTargetDone true, .renderLocalDone false] false true)[i]?
          = some PipeEvent.diffStarted →
      (∃ j < i, (runEventTrace [.renderTargetDone true, .renderLocalDone false] false true)[j]?
          = some (PipeEvent.renderLocalDone false)) ∧
      (∃ k < i, (runEventTrace [.renderTargetDone true, .renderLocalDone false] false true)[k]?
          = some (PipeEvent.renderTargetDone true)) :=
  c6_diff_starts_after_both_renders [] [] [.renderTargetDone true, .renderLocalDone false]
    false true (Shuffle.right (Shuffle.left Shuffle.nil))
    (by simp) (by simp)

/-! ## Path resolution (cmd/root.go lines 113-129, rdv RunE lines 95-111)

`filepath.Abs` returns a cleaned absolute path; `filepath.Rel(root, abs)`
then strips the common prefix of the two cleaned paths and emits one `..`
segment per remaining root segment (or `.` when the paths are equal).  Paths
are embedded as their segment lists; the `strings.HasPrefix(relativePath,
"..")` rejection test and the `filepath.Join(repoRoot, relativePath)` result
are translated directly. -/

/-- Strip the longest common prefix of two segment lists, returning the two
remainders. -/
def stripCommon : List String → List String → List String × List String
  | a :: as, b :: bs =>
    if a = b then stripCommon as bs else (a :: as, b :: bs)
  | as, bs => (as, bs)

/-- The segments of `filepath.Rel(root, p)` for cleaned absolute paths: one
`..` per unconsumed root segment, then the remainder of `p`. -/
def relSegs (root p : List String) : List String :=
  (stripCommon root p).1.map (fun _ => "..") ++ (stripCommon root p).2

/-- Joining path segments with `/`. -/
def joinSegs : List String → String
  | [] => ""
  | [s] => s
  | s :: rest => s ++ "/" ++ joinSegs rest

/-- The string `filepath.Rel(root, p)` returns: `.` when the paths are equal,
the joined relative segments otherwise. -/
def relString (root p : List String) : String :=
  match relSegs root p with
  | [] => "."
  | segs => joinSegs segs

/-- The diagnostic of the out-of-repository rejection (cmd/root.go 126). -/
def outOfRepoMsg (p root : List String) : String :=
  "the provided path resolves to '" ++ joinSegs p
    ++ "' and is outside the git repository root '" ++ joinSegs root ++ "'"

/-- Embedding of the path-resolution steps of `run` (cmd/root.go 113-129):
reject when the relative path has the literal prefix `..`, otherwise the
resolved path is `filepath.Join(repoRoot, relativePath)` — in the accepted
branch the relative segments contain no `..` (proved below), so the join is
plain concatenation. -/
def resolvePath (root p : List String) : Except GoError (List String) :=
  if goStartsWith (relString root p) ".." then .error (.errorString (outOfRepoMsg p root))
  else .ok (root ++ relSegs root p)

/-! ## The run pipeline of cmd/root.go (lines 94-208)

`run` is embedded as a function from an environment — the outcome of every
external call it makes — to the ordered list of its visible effects and its
outcome.  `log.Fatalf` calls `os.Exit(1)`, which terminates the process
without running deferred functions; a normal `return` runs the two deferred
cleanup steps in LIFO order (`git worktree remove` first, then
`os.RemoveAll`), each of which only logs a warning on failure. -/

/-- The outcomes of the external calls `run` makes, in source order. -/
structure RunEnv where
  rootSegs : List String
  absSegs : List String
  localState : RenderPathState
  mkTempOk : Bool
  worktreeAddOk : Bool
  targetState : RenderPathState
  worktreeRemoveOk : Bool
  removeAllOk : Bool
deriving Repr

/-- The visible effects of one `run` invocation. -/
inductive RunEffect where
  | renderedLocal
  | tempDirCreated
  | worktreeAdded
  | printedNoDiff
  | printedDiffOutput
  | worktreeRemoveRun (warned : Bool)
  | tempDirRemoveRun (warned : Bool)
deriving DecidableEq, Repr

/-- How the process leaves `run`: `log.Fatalf` exits with code 1 skipping the
deferred functions; `returned` is a normal return (`errNil` records whether
the returned error is nil). -/
inductive RunOutcome where
  | fatalExit
  | returned (errNil : Bool)
deriving DecidableEq, Repr

/-- The deferred cleanup steps in their LIFO execution order (cmd/root.go
150-166): `git worktree remove --force` then `os.RemoveAll`, each warning on
failure without affecting the result. -/
def runDefers (env : RunEnv) : List RunEffect :=
  [.worktreeRemoveRun (!env.worktreeRemoveOk), .tempDirRemoveRun (!env.removeAllOk)]

/-- The tail of `run` after a target render result was obtained (cmd/root.go
197-207): diff, print, then return through the deferred cleanup.  `errNil`
is whether the `err` variable returned at line 207 is nil — after the
`os.IsNotExist` downgrade it is **not** nil, faithfully to the source. -/
def finishRun (env : RunEnv) (localRender targetRender : String) (errNil : Bool) :
    List RunEffect × RunOutcome :=
  ([.renderedLocal, .tempDirCreated, .worktreeAdded,
    if createDiff targetRender localRender "target" "local" = ""
      then .printedNoDiff else .printedDiffOutput] ++ runDefers env,
   .returned errNil)

/-- Embedding of `run` (cmd/root.go 94-208): path resolution, local render,
temp dir, worktree add, target render with the `os.IsNotExist` downgrade,
diff and print, cleanup.  Every `log.Fatalf` path produces `fatalExit` with
exactly the effects performed so far — no cleanup, since `os.Exit` skips
deferred functions. -/
def runRenderDiff (env : RunEnv) : List RunEffect × RunOutcome :=
  if goStartsWith (relString env.rootSegs env.absSegs) ".." then ([], .fatalExit)
  else
    match renderManifests env.localState (joinSegs env.absSegs) with
    | .error _ => ([], .fatalExit)
    | .ok localRender =>
      if env.mkTempOk = false then ([.renderedLocal], .fatalExit)
      else if env.worktreeAddOk = false then ([.renderedLocal, .tempDirCreated], .fatalExit)
      else
        match renderManifests env.targetState (joinSegs env.absSegs) with
        | .error e =>
          if osIsNotExist e then finishRun env localRender "" false
          else ([.renderedLocal, .tempDirCreated, .worktreeAdded], .fatalExit)
        | .ok targetRender => finishRun env localRender targetRender true

/-! ### Claim C7 -/

/-- Stripping a list from its own extension consumes it entirely. -/
theorem stripCommon_append (l xs : List String) : stripCommon l (l ++ xs) = ([], xs) := by
  induction l with
  | nil => cases xs <;> rfl
  | cons a as ih => simpa [stripCommon] using ih

/-- A string extended on the right keeps its literal prefixes. -/
theorem goStartsWith_append (a b : String) : goStartsWith (a ++ b) a = true := by
  unfold goStartsWith
  rw [String.data_append, List.isPrefixOf_iff_prefix]
  exact List.prefix_append a.data b.data

/-- A joined segment list starting with a `..` segment starts with the
characters `..`. -/
theorem joinSegs_dotdot (t : List String) : goStartsWith (joinSegs (".." :: t)) ".." = true := by
  cases t with
  | nil => decide
  | cons s rest =>
    show goStartsWith (".." ++ "/" ++ joinSegs (s :: rest)) ".." = true
    rw [String.append_assoc]
    exact goStartsWith_append ".." ("/" ++ joinSegs (s :: rest))

/-- When the root is not fully consumed, the relative string starts with
`..`. -/
theorem relString_dotdot_of_leftover (root p : List String)
    (h : (stripCommon root p).1 ≠ []) : goStartsWith (relString root p) ".." = true := by
  obtain ⟨a, as, hcons⟩ := List.exists_cons_of_ne_nil h
  unfold relString relSegs
  rw [hcons, List.map_cons, List.cons_append]
  exact joinSegs_dotdot _

/-- Claim C7, counterexample: the directory `home/repo/..data` lies inside the
root `home/repo`, yet resolution rejects it as out of the repository, because
`strings.HasPrefix(relativePath, "..")` matches the literal name `..data`.
This refutes the claim's half "for every path inside the root, resolution
succeeds". -/
theorem c7_inside_path_rejected :
    (["home", "repo"]).isPrefixOf ["home", "repo", "..data"] = true ∧
    resolvePath ["home", "repo"] ["home", "repo", "..data"]
      = .error (.errorString (outOfRepoMsg ["home", "repo", "..data"] ["home", "repo"])) := by
  constructor
  · decide
  · rfl

/-- Claim C7 as amended: (a) whenever the relative path starts with the
characters `..` — every genuine parent-directory traversal, but also in-root
names such as `..data` — resolution fails with the out-of-repository error
and the run performs no render, no temporary directory creation and no
worktree creation; (b) every path inside the root whose relative path does
not start with `..` resolves successfully to itself; (c) resolution is
idempotent: resolving a successfully resolved path again succeeds with the
same result. -/
theorem c7_amended_path_resolution (root p : List String) :
    (goStartsWith (relString root p) ".." = true →
        resolvePath root p = .error (.errorString (outOfRepoMsg p root)) ∧
        ∀ env : RunEnv, env.rootSegs = root → env.absSegs = p →
          runRenderDiff env = ([], .fatalExit)) ∧
    (root.isPrefixOf p = true → goStartsWith (relString root p) ".." = false →
        resolvePath root p = .ok p) ∧
    (∀ q, resolvePath root p = .ok q → resolvePath root q = .ok q) := by
  refine ⟨fun h => ⟨?_, ?_⟩, fun hpre hacc => ?_, fun q hq => ?_⟩
  · rw [resolvePath, if_pos h]
  · intro env h1 h2
    rw [runRenderDiff, h1, h2, if_pos h]
  · rcases List.isPrefixOf_iff_prefix.mp hpre with ⟨rest, hrest⟩
    subst hrest
    rw [resolvePath, if_neg (by rw [hacc]; exact Bool.false_ne_true)]
    unfold relSegs
    rw [stripCommon_append, List.map_nil, List.nil_append]
  · rw [resolvePath] at hq
    split at hq
    · cases hq
    · rename_i hacc
      have hleft : (stripCommon root p).1 = [] := by
        by_contra hne
        exact hacc (relString_dotdot_of_leftover root p hne)
      have hsegs : relSegs root p = (stripCommon root p).2 := by
        unfold relSegs
        rw [hleft, List.map_nil, List.nil_append]
      injection hq with hq2
      subst hq2
      rw [resolvePath]
      have hsegs2 : relSegs root (root ++ relSegs root p) = relSegs root p := by
        rw [relSegs, stripCommon_append, List.map_nil, List.nil_append]
      have hrel : relString root (root ++ relSegs root p) = relString root p := by
        unfold relString
        rw [hsegs2]
      rw [hrel, if_neg hacc, hsegs2]

/-- Witness for claim C7's amended theorem: an ordinary in-root path resolves
to itself, and a traversal path makes the run exit before any effect. -/
theorem c7_amended_path_resolution_witness :
    resolvePath ["home", "repo"] ["home", "repo", "app"] = .ok ["home", "repo", "app"] ∧
    runRenderDiff ⟨["home", "repo"], ["home", "other"], missingPathState, true, true,
        missingPathState, true, true⟩ = ([], .fatalExit) :=
  ⟨(c7_amended_path_resolution ["home", "repo"] ["home", "repo", "app"]).2.1
      (by decide) (by decide),
   ((c7_amended_path_resolution ["home", "repo"] ["home", "other"]).1
      (by decide)).2 _ rfl rfl⟩

/-! ### Claim C8

The rdv variant (unnamed part, `RunE` lines 120-127) registers
`defer cleanup()` right after `git.SetupWorkTree` succeeds and reports every
later failure with `return err`, so the deferred cleanup runs on every exit
path; the cleanup body (in the internal git package, not under src/) is
modelled from the spec: deregister the worktree and remove the temporary
directory, both best-effort with warnings.  The cmd/root.go variant registers
the same two deferred steps but reports later failures with `log.Fatalf`,
which exits the process without running deferred functions. -/

/-- The environment of the rdv pipeline from worktree creation on: whether
`git.SetupWorkTree` succeeds, the two render outcomes, and whether each
cleanup step succeeds. -/
structure RdvEnv where
  worktreeAddOk : Bool
  localRender : Except GoError String
  targetRender : Except GoError String
  worktreeRemoveOk : Bool
  removeAllOk : Bool
deriving Repr

/-- Embedding of the rdv `RunE` from `git.SetupWorkTree` on (unnamed part,
lines 120-212): a `SetupWorkTree` failure is returned before the cleanup is
registered; afterwards every path — error or not — runs the deferred cleanup
after the diff phase, and the command returns an error for the exit code. -/
def runRdvPipeline (env : RdvEnv) : List RunEffect × RunOutcome :=
  if env.worktreeAddOk = false then ([], .returned false)
  else
    let cleanup := [RunEffect.worktreeRemoveRun (!env.worktreeRemoveOk),
                    RunEffect.tempDirRemoveRun (!env.removeAllOk)]
    match env.localRender with
    | .error _ => ([.worktreeAdded] ++ cleanup, .returned false)
    | .ok lr =>
      match handleTargetRender env.targetRender with
      | .error _ => ([.worktreeAdded] ++ cleanup, .returned false)
      | .ok tr =>
        ([.worktreeAdded,
          if createDiff tr lr "target" "local" = ""
            then .printedNoDiff else .printedDiffOutput] ++ cleanup,
         .returned true)

/-- A render-path state whose chart renders successfully to a fixed text. -/
def okChartState : RenderPathState :=
  ⟨true, false, .ok "kind: A\n", .error (.errorString "unused")⟩

/-- Claim C8: the claim's non-escalation half holds — cleanup-step failures
only add warnings and never change the outcome, in either variant — but its
unconditional-attempt half fails on cmd/root.go: when the target render fails
fatally after the worktree was created, `log.Fatalf` exits without running
the deferred cleanup, so neither the worktree removal nor the temporary
directory removal is attempted.  Conjunct 1 evaluates that failing run;
conjunct 2 shows the successful run attempting both cleanup steps with
warnings and still returning cleanly; conjunct 3 shows the cmd/root.go
outcome is independent of the cleanup flags; conjunct 4 shows the rdv
variant attempts cleanup on every path after worktree creation — error paths
included — with an outcome independent of the cleanup flags. -/
theorem c8_cleanup_skipped_on_fatal_error_paths :
    runRenderDiff ⟨["r"], ["r", "app"], okChartState, true, true, missingPathState, true, true⟩
      = ([.renderedLocal, .tempDirCreated, .worktreeAdded], .fatalExit) ∧
    runRenderDiff ⟨["r"], ["r", "app"], okChartState, true, true, okChartState, false, false⟩
      = ([.renderedLocal, .tempDirCreated, .worktreeAdded, .printedNoDiff,
          .worktreeRemoveRun true, .tempDirRemoveRun true], .returned true) ∧
    (∀ (root abs : List String) (ls ts : RenderPathState) (mk wa w r w2 r2 : Bool),
        (runRenderDiff ⟨root, abs, ls, mk, wa, ts, w, r⟩).2
          = (runRenderDiff ⟨root, abs, ls, mk, wa, ts, w2, r2⟩).2) ∧
    (∀ (lr tr : Except GoError String) (w r : Bool),
        (∃ pre, (runRdvPipeline ⟨true, lr, tr, w, r⟩).1
            = pre ++ [.worktreeRemoveRun (!w), .tempDirRemoveRun (!r)]) ∧
        (runRdvPipeline ⟨true, lr, tr, w, r⟩).2
          = (runRdvPipeline ⟨true, lr, tr, true, true⟩).2) := by
  refine ⟨rfl, ?_, ?_, ?_⟩
  · have hd : createDiff "kind: A\n" "kind: A\n" "target" "local" = "" := by
      unfold createDiff formatUnified
      rw [diffLines_self, hasChanges_map_keep]
      rfl
    have h1 : runRenderDiff ⟨["r"], ["r", "app"], okChartState, true, true, okChartState,
          false, false⟩
        = finishRun ⟨["r"], ["r", "app"], okChartState, true, true, okChartState,
          false, false⟩ "kind: A\n" "kind: A\n" true := rfl
    rw [h1, finishRun, hd]
    rfl
  · intro root abs ls ts mk wa w r w2 r2
    unfold runRenderDiff finishRun
    dsimp only
    repeat' split
    all_goals rfl
  · intro lr tr w r
    cases lr with
    | error e => exact ⟨⟨[.worktreeAdded], rfl⟩, rfl⟩
    | ok lv =>
      cases htr : handleTargetRender tr with
      | error e =>
        refine ⟨⟨[.worktreeAdded], ?_⟩, ?_⟩ <;> simp [runRdvPipeline, htr]
      | ok tv =>
        refine ⟨⟨[.worktreeAdded,
          if createDiff tv lv "target" "local" = ""
            then .printedNoDiff else .printedDiffOutput], ?_⟩, ?_⟩ <;>
          simp [runRdvPipeline, htr]

/-! ## RenderChart's template concatenation (unnamed part, helm package, lines 82-104)

`engine.Render` returns a Go map from template key to rendered content; the
map is embedded as an association list with pairwise-distinct keys, iterated
— as in the source — by collecting the keys, sorting them with
`sort.Strings`, and looking each key up. -/

/-- One emitted block (unnamed part, helm package 98-101): document separator,
source comment, content, newline. -/
def renderBlock (key content : String) : String :=
  "---\n" ++ "# Source: " ++ key ++ "\n" ++ content ++ "\n"

/-- The skip condition (unnamed part, helm package 93-95): whitespace-only
content, partials (`.tpl`), or `NOTES.txt`. -/
def skipTemplate (key content : String) : Bool :=
  goTrimSpace content = "" || goEndsWith key ".tpl" || goEndsWith key "NOTES.txt"

/-- Embedding of the concatenation loop of `RenderChart` (unnamed part, helm
package 82-104): sort the map's keys, then emit a block per non-skipped
template in key order. -/
def concatRendered (m : List (String × String)) : String :=
  (List.insertionSort (fun a b : String => a ≤ b) (m.map Prod.fst)).foldl
    (fun acc k =>
      match m.lookup k with
      | none => acc
      | some c => if skipTemplate k c then acc else acc ++ renderBlock k c) ""

/-- The template entries in key order. -/
def sortedTemplates (m : List (String × String)) : List (String × String) :=
  List.insertionSort (fun a b : String × String => a.1 ≤ b.1) m

/-- The blocks of an entry list, in order, skipped entries omitted. -/
def blocksOf (es : List (String × String)) : String :=
  String.join ((es.filter fun kv => !skipTemplate kv.1 kv.2).map fun kv => renderBlock kv.1 kv.2)

/-! ### Helper lemmas for claim C9 -/

/-- A successful association-list lookup returns a member pair. -/
theorem mem_of_lookup_eq_some {β : Type} {l : List (String × β)} {k : String} {v : β}
    (h : l.lookup k = some v) : (k, v) ∈ l := by
  induction l with
  | nil => cases h
  | cons kv rest ih =>
    rw [List.lookup] at h
    cases hbeq : k == kv.1 with
    | true =>
      rw [hbeq] at h
      cases h
      have := eq_of_beq hbeq
      subst this
      exact List.mem_cons_self _ _
    | false =>
      rw [hbeq] at h
      exact List.mem_cons_of_mem kv (ih h)

/-- A failed association-list lookup means no member pair has the key. -/
theorem not_mem_of_lookup_eq_none {β : Type} {l : List (String × β)} {k : String} {v : β}
    (h : l.lookup k = none) : (k, v) ∉ l := by
  induction l with
  | nil => simp
  | cons kv rest ih =>
    rw [List.lookup] at h
    cases hbeq : k == kv.1 with
    | true => rw [hbeq] at h; cases h
    | false =>
      rw [hbeq] at h
      intro hmem
      rcases List.mem_cons.mp hmem with heq | hmem2
      · rw [← heq] at hbeq
        simp at hbeq
      · exact ih h hmem2

/-- Permuted association lists with distinct keys agree on every lookup. -/
theorem lookup_eq_of_perm {β : Type} {m1 m2 : List (String × β)}
    (hperm : m1.Perm m2) (hnd : (m1.map Prod.fst).Nodup) (k : String) :
    m1.lookup k = m2.lookup k := by
  have hnd2 : (m2.map Prod.fst).Nodup := (hperm.map Prod.fst).nodup_iff.mp hnd
  cases h1 : m1.lookup k with
  | some v =>
    exact (lookup_eq_of_mem_of_nodup m2 k v hnd2 (hperm.mem_iff.mp (mem_of_lookup_eq_some h1))).symm
  | none =>
    cases h2 : m2.lookup k with
    | none => rfl
    | some v =>
      exact absurd (hperm.mem_iff.mpr (mem_of_lookup_eq_some h2))
        (not_mem_of_lookup_eq_none h1)

/-- Ordered insertion of a pair commutes with projecting the keys. -/
theorem map_fst_orderedInsert (x : String × String) (l : List (String × String)) :
    (List.orderedInsert (fun a b : String × String => a.1 ≤ b.1) x l).map Prod.fst
      = List.orderedInsert (fun a b : String => a ≤ b) x.1 (l.map Prod.fst) := by
  induction l with
  | nil => rfl
  | cons y rest ih =>
    by_cases hle : x.1 ≤ y.1
    · simp only [List.orderedInsert, if_pos hle, List.map_cons]
    · simp only [List.orderedInsert, if_neg hle, List.map_cons, ih]

/-- Sorting the entries and projecting the keys is sorting the keys. -/
theorem map_fst_sortedTemplates (m : List (String × String)) :
    (sortedTemplates m).map Prod.fst
      = List.insertionSort (fun a b : String => a ≤ b) (m.map Prod.fst) := by
  unfold sortedTemplates
  induction m with
  | nil => rfl
  | cons kv rest ih =>
    rw [List.insertionSort, List.map_cons, List.insertionSort, map_fst_orderedInsert, ih]

/-- Left-folding string concatenation over a list distributes over a prefix of
the accumulator. -/
theorem strFoldl_append (l : List String) (a b : String) :
    l.foldl (· ++ ·) (a ++ b) = a ++ l.foldl (· ++ ·) b := by
  induction l generalizing b with
  | nil => rfl
  | cons c cs ih =>
    rw [List.foldl_cons, List.foldl_cons, String.append_assoc]
    exact ih (b ++ c)

/-- Joining a nonempty list of strings prepends its head. -/
theorem strJoin_cons (s : String) (l : List String) :
    String.join (s :: l) = s ++ String.join l := by
  have h := strFoldl_append l s ""
  rw [String.append_empty] at h
  show List.foldl (· ++ ·) ("" ++ s) l = s ++ List.foldl (· ++ ·) "" l
  rw [String.empty_append]
  exact h

/-- Folding the emission step over an entry list's keys, when the backing map
looks every entry up to its own value, appends that entry list's blocks. -/
theorem foldl_blocks (m : List (String × String)) (es : List (String × String)) (acc : String)
    (h : ∀ kv ∈ es, m.lookup kv.1 = some kv.2) :
    (es.map Prod.fst).foldl
      (fun acc k =>
        match m.lookup k with
        | none => acc
        | some c => if skipTemplate k c then acc else acc ++ renderBlock k c) acc
      = acc ++ blocksOf es := by
  induction es generalizing acc with
  | nil => rw [List.map_nil, List.foldl_nil, blocksOf]; simp [String.join, String.append_empty]
  | cons kv rest ih =>
    rw [List.map_cons, List.foldl_cons, h kv (List.mem_cons_self kv rest)]
    dsimp only
    have hrest : ∀ kv2 ∈ rest, m.lookup kv2.1 = some kv2.2 :=
      fun kv2 hkv2 => h kv2 (List.mem_cons_of_mem kv hkv2)
    by_cases hskip : skipTemplate kv.1 kv.2 = true
    · rw [if_pos hskip, ih acc hrest]
      have : blocksOf (kv :: rest) = blocksOf rest := by
        unfold blocksOf
        rw [List.filter_cons_of_neg (by simp [hskip])]
      rw [this]
    · rw [if_neg hskip, ih (acc ++ renderBlock kv.1 kv.2) hrest]
      have : blocksOf (kv :: rest) = renderBlock kv.1 kv.2 ++ blocksOf rest := by
        unfold blocksOf
        rw [List.filter_cons_of_pos (by simp [hskip]), List.map_cons, strJoin_cons]
      rw [this, String.append_assoc]

/-- The concatenated output characterized: the blocks of the key-sorted,
filtered entry list. -/
theorem concatRendered_characterized (m : List (String × String))
    (hnd : (m.map Prod.fst).Nodup) : concatRendered m = blocksOf (sortedTemplates m) := by
  unfold concatRendered
  rw [← map_fst_sortedTemplates]
  rw [foldl_blocks m (sortedTemplates m) ""
    (fun kv hkv => lookup_eq_of_mem_of_nodup m kv.1 kv.2 hnd
      ((List.perm_insertionSort _ m).mem_iff.mp hkv))]
  exact String.empty_append _

/-- Claim C9: for a fixed rendered-template map, the concatenation emits the
non-skipped templates in lexicographic key order, each as a `---` separator
plus a `# Source:` comment plus the content — so the output is uniquely
determined by the map: any two association lists representing the same map
(permutations of one another, keys distinct) concatenate identically. -/
theorem c9_concat_sorted_and_deterministic (m1 m2 : List (String × String))
    (hnd : (m1.map Prod.fst).Nodup) (hperm : m1.Perm m2) :
    concatRendered m1 = blocksOf (sortedTemplates m1) ∧
    concatRendered m1 = concatRendered m2 := by
  have hnd2 : (m2.map Prod.fst).Nodup := (hperm.map Prod.fst).nodup_iff.mp hnd
  refine ⟨concatRendered_characterized m1 hnd, ?_⟩
  have hkeys : List.insertionSort (fun a b : String => a ≤ b) (m1.map Prod.fst)
      = List.insertionSort (fun a b : String => a ≤ b) (m2.map Prod.fst) := by
    refine List.eq_of_perm_of_sorted ?_
      (List.sorted_insertionSort _ _) (List.sorted_insertionSort _ _)
    exact (List.perm_insertionSort _ _).trans
      ((hperm.map Prod.fst).trans (List.perm_insertionSort _ _).symm)
  have hstep : ∀ (acc : String) (k : String),
      (match m1.lookup k with
       | none => acc
       | some c => if skipTemplate k c then acc else acc ++ renderBlock k c)
      = (match m2.lookup k with
       | none => acc
       | some c => if skipTemplate k c then acc else acc ++ renderBlock k c) := by
    intro acc k
    rw [lookup_eq_of_perm hperm hnd k]
  have hfold : ∀ (keys : List String) (acc : String),
      keys.foldl
        (fun acc k =>
          match m1.lookup k with
          | none => acc
          | some c => if skipTemplate k c then acc else acc ++ renderBlock k c) acc
      = keys.foldl
        (fun acc k =>
          match m2.lookup k with
          | none => acc
          | some c => if skipTemplate k c then acc else acc ++ renderBlock k c) acc := by
    intro keys
    induction keys with
    | nil => intro acc; rfl
    | cons k rest ih =>
      intro acc
      rw [List.foldl_cons, List.foldl_cons, hstep, ih]
  unfold concatRendered
  rw [hkeys]
  exact hfold _ ""

/-- Witness for claim C9 at a concrete four-template map, listed in two
different orders, containing a partial and a whitespace-only template. -/
theorem c9_concat_sorted_and_deterministic_witness :
    concatRendered [("templates/b.yaml", "kind: B"), ("templates/a.yaml", "kind: A"),
        ("_helpers.tpl", "x"), ("templates/empty.yaml", " \n")]
      = blocksOf (sortedTemplates [("templates/b.yaml", "kind: B"), ("templates/a.yaml", "kind: A"),
        ("_helpers.tpl", "x"), ("templates/empty.yaml", " \n")]) ∧
    concatRendered [("templates/b.yaml", "kind: B"), ("templates/a.yaml", "kind: A"),
        ("_helpers.tpl", "x"), ("templates/empty.yaml", " \n")]
      = concatRendered [("templates/a.yaml", "kind: A"), ("templates/empty.yaml", " \n"),
        ("templates/b.yaml", "kind: B"), ("_helpers.tpl", "x")] :=
  c9_concat_sorted_and_deterministic
    [("templates/b.yaml", "kind: B"), ("templates/a.yaml", "kind: A"),
      ("_helpers.tpl", "x"), ("templates/empty.yaml", " \n")]
    [("templates/a.yaml", "kind: A"), ("templates/empty.yaml", " \n"),
      ("templates/b.yaml", "kind: B"), ("_helpers.tpl", "x")]
    (by decide) (by decide)

/-! ## loadValues (unnamed part, helm package, lines 108-129)

`loadValues` walks the `--values` paths in order: a missing file is skipped
with a warning, a file that fails `chartutil.ReadValuesFile` aborts with an
error, and each parsed file is merged over the accumulator with
`chartutil.CoalesceTables(currentValues, mergedValues)`, in which the first
argument — the later file — wins.  `CoalesceTables` is external Helm code;
following the source's own comment ("later values files override earlier
ones"), it is modelled as a first-argument-wins association-map merge (the
recursive merge of nested tables is flattened into top-level keys). -/

/-- The state of one values-file path on disk: absent, present but
unparseable, or parsed to a values table. -/
inductive ValueFileState where
  | absent
  | invalid (msg : String)
  | valid (vals : List (String × String))
deriving DecidableEq, Repr

/-- Whether `os.Stat` finds the file (unnamed part, helm package 114). -/
def fileExists : ValueFileState → Bool
  | .absent => false
  | .invalid _ => true
  | .valid _ => true

/-- Whether reading the existing file fails (unnamed part, helm package 119-122). -/
def isInvalidFile : ValueFileState → Bool
  | .absent => false
  | .invalid _ => true
  | .valid _ => false

/-- Modelled from the source comment on `chartutil.CoalesceTables(dst, src)`:
the destination (the later file) wins on every key. -/
def coalesceTables (dst src : List (String × String)) : List (String × String) :=
  dst ++ src.filter fun kv => (dst.lookup kv.1).isNone

/-- The loop of `loadValues` (unnamed part, helm package 111-127) with its
accumulator explicit: skip missing files, fail on unreadable files, coalesce
parsed files with the newer file overriding. -/
def loadValuesAux (fs : String → ValueFileState) :
    List String → List (String × String) → Except GoError (List (String × String))
  | [], acc => .ok acc
  | p :: rest, acc =>
    match fs p with
    | .absent => loadValuesAux fs rest acc
    | .invalid msg => .error (.errorString ("failed to read values file " ++ p ++ ": " ++ msg))
    | .valid v => loadValuesAux fs rest (coalesceTables v acc)

/-- Embedding of `loadValues` (unnamed part, helm package 108-129). -/
def loadValues (fs : String → ValueFileState) (paths : List String) :
    Except GoError (List (String × String)) :=
  loadValuesAux fs paths []

/-- The parsed tables of the values files that exist, in path order. -/
def existingValues (fs : String → ValueFileState) (paths : List String) :
    List (List (String × String)) :=
  paths.filterMap fun p =>
    match fs p with
    | .valid v => some v
    | _ => none

/-- The value the latest file carrying a key assigns to it. -/
def lastLookup (vls : List (List (String × String))) (k : String) : Option String :=
  vls.reverse.findSome? fun v => v.lookup k

/-! ### Helper lemmas for claim C10 -/

/-- Lookup distributes over association-list append, earlier entries first. -/
theorem lookup_append {β : Type} (l1 l2 : List (String × β)) (k : String) :
    (l1 ++ l2).lookup k = (l1.lookup k).or (l2.lookup k) := by
  induction l1 with
  | nil => rfl
  | cons kv rest ih =>
    rw [List.cons_append, List.lookup, List.lookup]
    cases hbeq : k == kv.1 with
    | true => rfl
    | false => exact ih

/-- Filtering out the keys the destination holds does not change lookups of
keys the destination lacks. -/
theorem lookup_filter_none {β : Type} (v acc : List (String × β)) (k : String)
    (hv : v.lookup k = none) :
    (acc.filter fun kv => (v.lookup kv.1).isNone).lookup k = acc.lookup k := by
  induction acc with
  | nil => rfl
  | cons kv rest ih =>
    by_cases hbeq : (k == kv.1) = true
    · have hk : k = kv.1 := eq_of_beq hbeq
      subst hk
      simp [List.filter_cons, hv, List.lookup]
    · have hbf : (k == kv.1) = false := by simpa using hbeq
      cases hp : (v.lookup kv.1).isNone with
      | true => simp [List.filter_cons, hp, List.lookup, hbf, ih]
      | false => simp [List.filter_cons, hp, List.lookup, hbf, ih]

/-- Lookup through the modelled `CoalesceTables`: the destination wins, the
source answers only keys the destination lacks. -/
theorem coalesce_lookup (v acc : List (String × String)) (k : String) :
    (coalesceTables v acc).lookup k = (v.lookup k).or (acc.lookup k) := by
  unfold coalesceTables
  rw [lookup_append]
  cases hv : v.lookup k with
  | some w => rfl
  | none => rw [lookup_filter_none v acc k hv]

/-- Prepending a table to the existing-file list makes it the earliest, i.e.
the fallback of all later ones. -/
theorem lastLookup_cons (v : List (String × String)) (l : List (List (String × String)))
    (k : String) : lastLookup (v :: l) k = (lastLookup l k).or (v.lookup k) := by
  unfold lastLookup
  have h : List.findSome? (fun t => List.lookup k t) [v] = v.lookup k := by
    cases hv : v.lookup k <;> simp [List.findSome?, hv]
  rw [List.reverse_cons, List.findSome?_append, h]

/-- The loop invariant of `loadValuesAux`: when no existing file is invalid,
it succeeds, and each key resolves to the latest file carrying it, falling
back to the accumulator. -/
theorem loadValuesAux_ok (fs : String → ValueFileState) (paths : List String)
    (acc : List (String × String)) (hok : ∀ p ∈ paths, isInvalidFile (fs p) = false) :
    ∃ w, loadValuesAux fs paths acc = .ok w ∧
      ∀ k, w.lookup k = (lastLookup (existingValues fs paths) k).or (acc.lookup k) := by
  induction paths generalizing acc with
  | nil =>
    exact ⟨acc, rfl, fun k => by simp [existingValues, lastLookup, List.findSome?]⟩
  | cons p rest ih =>
    have hrest : ∀ q ∈ rest, isInvalidFile (fs q) = false :=
      fun q hq => hok q (List.mem_cons_of_mem p hq)
    cases hp : fs p with
    | absent =>
      rcases ih acc hrest with ⟨w, hw, hlook⟩
      refine ⟨w, ?_, ?_⟩
      · rw [loadValuesAux, hp]
        exact hw
      · intro k
        rw [hlook k]
        have : existingValues fs (p :: rest) = existingValues fs rest := by
          unfold existingValues
          rw [List.filterMap_cons, hp]
        rw [this]
    | invalid msg =>
      have h2 := hok p (List.mem_cons_self p rest)
      rw [hp] at h2
      exact Bool.noConfusion h2
    | valid v =>
      rcases ih (coalesceTables v acc) hrest with ⟨w, hw, hlook⟩
      refine ⟨w, ?_, ?_⟩
      · rw [loadValuesAux, hp]
        exact hw
      · intro k
        rw [hlook k, coalesce_lookup]
        have : existingValues fs (p :: rest) = v :: existingValues fs rest := by
          unfold existingValues
          rw [List.filterMap_cons, hp]
        rw [this, lastLookup_cons, Option.or_assoc]

/-- `loadValuesAux` fails only when some listed file exists and is
unparseable. -/
theorem loadValuesAux_error (fs : String → ValueFileState) (paths : List String)
    (acc : List (String × String)) (e : GoError) (h : loadValuesAux fs paths acc = .error e) :
    ∃ p ∈ paths, isInvalidFile (fs p) = true := by
  induction paths generalizing acc with
  | nil => cases h
  | cons p rest ih =>
    rw [loadValuesAux] at h
    cases hp : fs p with
    | absent =>
      rw [hp] at h
      rcases ih acc h with ⟨q, hq, hinv⟩
      exact ⟨q, List.mem_cons_of_mem p hq, hinv⟩
    | invalid msg => exact ⟨p, List.mem_cons_self p rest, by rw [hp]; rfl⟩
    | valid v =>
      rw [hp] at h
      rcases ih (coalesceTables v acc) h with ⟨q, hq, hinv⟩
      exact ⟨q, List.mem_cons_of_mem p hq, hinv⟩

/-- Dropping the missing files from the path list does not change the
result. -/
theorem loadValuesAux_skip (fs : String → ValueFileState) (paths : List String)
    (acc : List (String × String)) :
    loadValuesAux fs paths acc
      = loadValuesAux fs (paths.filter fun p => fileExists (fs p)) acc := by
  induction paths generalizing acc with
  | nil => rfl
  | cons p rest ih =>
    rw [loadValuesAux]
    cases hp : fs p with
    | absent =>
      rw [List.filter_cons_of_neg (by rw [hp]; simp [fileExists])]
      exact ih acc
    | invalid msg =>
      rw [List.filter_cons_of_pos (by rw [hp]; rfl), loadValuesAux, hp]
    | valid v =>
      rw [List.filter_cons_of_pos (by rw [hp]; rfl), loadValuesAux, hp]
      exact ih (coalesceTables v acc)

/-- Claim C10: a listed values file that does not exist is skipped (the result
equals the result over the existing files only); `loadValues` returns an
error only when a listed file exists and fails to parse; and when no file is
invalid it succeeds with the merge of the existing files in order, later
files overriding earlier ones — each key resolves to the value of the latest
existing file that carries it. -/
theorem c10_loadValues_merges_existing_files (fs : String → ValueFileState)
    (paths : List String) :
    loadValues fs paths = loadValues fs (paths.filter fun p => fileExists (fs p)) ∧
    (∀ e, loadValues fs paths = .error e → ∃ p ∈ paths, isInvalidFile (fs p) = true) ∧
    ((∀ p ∈ paths, isInvalidFile (fs p) = false) →
      ∃ w, loadValues fs paths = .ok w ∧
        ∀ k, w.lookup k = lastLookup (existingValues fs paths) k) := by
  refine ⟨?_, ?_, ?_⟩
  · have h := loadValuesAux_skip fs paths []
    have h2 := loadValuesAux_skip fs (paths.filter fun p => fileExists (fs p)) []
    unfold loadValues
    exact h
  · intro e he
    exact loadValuesAux_error fs paths [] e he
  · intro hok
    rcases loadValuesAux_ok fs paths [] hok with ⟨w, hw, hlook⟩
    refine ⟨w, hw, fun k => ?_⟩
    rw [hlook k]
    cases lastLookup (existingValues fs paths) k <;> rfl

/-- The concrete filesystem of the C10 witness: a parseable base file, a
missing overlay, and a parseable overlay overriding one key. -/
def c10FileSystem : String → ValueFileState := fun p =>
  if p = "base.yaml" then .valid [("replicas", "2"), ("image", "app")]
  else if p = "missing.yaml" then .absent
  else if p = "dev.yaml" then .valid [("replicas", "3")]
  else .absent

/-- Witness for claim C10 at the concrete three-path invocation. -/
theorem c10_loadValues_merges_existing_files_witness :
    loadValues c10FileSystem ["base.yaml", "missing.yaml", "dev.yaml"]
      = loadValues c10FileSystem
          (["base.yaml", "missing.yaml", "dev.yaml"].filter fun p =>
            fileExists (c10FileSystem p)) ∧
    ∃ w, loadValues c10FileSystem ["base.yaml", "missing.yaml", "dev.yaml"] = .ok w ∧
      ∀ k, w.lookup k
        = lastLookup (existingValues c10FileSystem ["base.yaml", "missing.yaml", "dev.yaml"]) k :=
  ⟨(c10_loadValues_merges_existing_files c10FileSystem
      ["base.yaml", "missing.yaml", "dev.yaml"]).1,
   (c10_loadValues_merges_existing_files c10FileSystem
      ["base.yaml", "missing.yaml", "dev.yaml"]).2.2 (by decide)⟩

end RenderDiff
